import Mathlib

/-!
Verification of the GCodePause line-oriented GCODE transformer
(`gcodepause/gcodefile.py`).

The program is embedded shallowly:

* a GCODE file in memory is a `List String`, one element per line, each line
  keeping its original terminator, exactly like Python's `readlines`;
* layer heights are modelled as exact rationals `ℚ` (Python parses them with
  `float`; no verified property depends on binary floating-point rounding);
* Python's `OrderedDict` is an association list with insertion-order keys and
  in-place value overwrite (`odUpdate` / `odLookup`);
* fallible operations return `Except Err`; methods that can leave the object
  partially mutated when an exception escapes (Python semantics) return the
  post-state together with `Option Err`.
-/

deriving instance DecidableEq for Except

namespace GCodePause

/-- Exceptions raised by the Python code: `ValueError` from parameter
validation or `float(...)`, `KeyError` from the reverse layer lookup in
`_find_pauses`, `FileNotFoundError` from the source checks. -/
inductive Err where
  | valueError
  | keyError
  | fileNotFound
deriving DecidableEq, Repr

/-- Non-fatal diagnostics emitted with `warnings.warn`. -/
inductive GWarn where
  | substituted (h : ℚ)
  | aboveAll
deriving DecidableEq, Repr

/-- Python `str.strip(c)` on a list of characters: removes every leading and
trailing occurrence of `c`. -/
def stripChar (c : Char) (l : List Char) : List Char :=
  ((l.dropWhile fun a => decide (a = c)).reverse.dropWhile fun a => decide (a = c)).reverse

/-- `line.strip('\n').strip('\r')` as used in `_find_layers`/`_find_pauses`. -/
def stripNlCr (s : String) : String := ⟨stripChar '\r' (stripChar '\n' s.data)⟩

/-- Value of a list of decimal digit characters. -/
def natOfDigits (ds : List Char) : ℕ := ds.foldl (fun a c => 10 * a + (c.toNat - 48)) 0

/-- Core of one `_find_layers` scan step, applied to the characters after the
leading semicolon of an already stripped line.  The regex
`\A(;[0-9]+\.*[0-9]*){1}\Z` matches iff the characters decompose as one or
more digits, then zero or more literal dots, then zero or more digits, with
nothing left.  On a match the code runs `float(line.strip(';'))`: with at most
one dot this yields the decimal value, with two or more dots `float` raises
`ValueError`. -/
def layerScanCore (rest : List Char) : Except Err (Option ℚ) :=
  let d1 := rest.takeWhile Char.isDigit
  let r1 := rest.dropWhile Char.isDigit
  let dots := r1.takeWhile fun ch => decide (ch = '.')
  let r2 := r1.dropWhile fun ch => decide (ch = '.')
  let d2 := r2.takeWhile Char.isDigit
  let r3 := r2.dropWhile Char.isDigit
  if 0 < d1.length ∧ r3 = [] then
    if dots.length ≤ 1 then
      .ok (some (mkRat ((natOfDigits d1 * 10 ^ d2.length + natOfDigits d2 : ℕ) : ℤ) (10 ^ d2.length)))
    else
      .error .valueError
  else
    .ok none

/-- One line of the `_find_layers` scan: `.ok (some q)` when the line is
recorded as a layer marker of height `q`, `.ok none` when the line is skipped,
`.error .valueError` when `float` raises. -/
def layerScan (line : String) : Except Err (Option ℚ) :=
  match (stripNlCr line).data with
  | [] => .ok none
  | c :: rest => if c = ';' then layerScanCore rest else .ok none

/-- The module-level 7-line pause template (literal braces written with
escapes). -/
def template : List String :=
  [";BEGIN_PAUSE\n",
   "G91    ; Put in relative mode\n",
   "G1 Z\x7bz_offset:.4g\x7d    ; Raise hot end by \x7bz_offset:.4g\x7dmm\n",
   "G90    ; Put back in absolute mode\n",
   "G1 X\x7bx:.4g\x7d Y\x7by:.4g\x7d    ; Move the X & Y away from the print\n",
   "M0 \x7bmessage\x7d    ; Pause and wait for the user\n",
   ";END_PAUSE\n"]

/-- `OrderedDict` assignment `d[k] = v`: overwrite in place, or append. -/
def odUpdate {α : Type} : List (ℚ × α) → ℚ → α → List (ℚ × α)
  | [], k, v => [(k, v)]
  | e :: rest, k, v => if e.1 = k then (k, v) :: rest else e :: odUpdate rest k v

/-- `OrderedDict` lookup `d.get(k)`. -/
def odLookup {α : Type} (l : List (ℚ × α)) (k : ℚ) : Option α :=
  (l.find? fun e => decide (e.1 = k)).map Prod.snd

/-- The `_find_layers` loop with explicit line counter and accumulator. -/
def findLayersAux : List String → ℕ → List (ℚ × ℕ) → Except Err (List (ℚ × ℕ))
  | [], _, acc => .ok acc
  | l :: rest, i, acc =>
    match layerScan l with
    | .error e => .error e
    | .ok none => findLayersAux rest (i + 1) acc
    | .ok (some q) => findLayersAux rest (i + 1) (odUpdate acc q i)

/-- `GCodeFile._find_layers`: heights mapped to zero-based line numbers. -/
def find_layers (lines : List String) : Except Err (List (ℚ × ℕ)) :=
  findLayersAux lines 0 []

/-- The detection pattern for pause blocks: the template's first line with
trailing newline/carriage return stripped; `re.match` tests it as a prefix. -/
def pausePat : List Char := (stripNlCr template.headI).data

/-- A line matching the pause-opening sentinel (prefix match, as `re.match`
does with the literal pattern `;BEGIN_PAUSE`). -/
def isSentinel (l : String) : Bool := pausePat.isPrefixOf (stripNlCr l).data

/-- The reverse dict comprehension `{l: h for h, l in layers.items()}` followed
by lookup of a (possibly negative) line number: the entry *last* listed for a
given line number wins, hence the `reverse`. -/
def revLookup (layers : List (ℚ × ℕ)) (j : ℤ) : Option ℚ :=
  (layers.reverse.find? fun e => decide ((e.2 : ℤ) = j)).map Prod.fst

/-- The `_find_pauses` loop.  A sentinel line at index `i` whose preceding
line number `i - 1` is not a recorded layer line raises `KeyError`. -/
def findPausesAux (layers : List (ℚ × ℕ)) :
    List String → ℕ → List (ℚ × (ℕ × ℕ)) → Except Err (List (ℚ × (ℕ × ℕ)))
  | [], _, acc => .ok acc
  | l :: rest, i, acc =>
    if isSentinel l then
      match revLookup layers ((i : ℤ) - 1) with
      | none => .error .keyError
      | some h => findPausesAux layers rest (i + 1) (odUpdate acc h (i, i + (template.length - 1)))
    else
      findPausesAux layers rest (i + 1) acc

/-- `GCodeFile._find_pauses`: heights mapped to inclusive (start, end) line
ranges of the pause blocks. -/
def find_pauses (layers : List (ℚ × ℕ)) (lines : List String) :
    Except Err (List (ℚ × (ℕ × ℕ))) :=
  findPausesAux layers lines 0 []

/-- The mutable state of a `GCodeFile` object: the line buffer and the two
derived indices. -/
structure GCodeFile where
  lines : List String
  layers : List (ℚ × ℕ)
  pauses : List (ℚ × (ℕ × ℕ))
deriving DecidableEq, Repr

/-- `GCodeFile.__init__` after the file has been read into lines: build both
indices (either scan can raise). -/
def load_gcode (lines : List String) : Except Err GCodeFile :=
  match find_layers lines with
  | .error e => .error e
  | .ok L =>
    match find_pauses L lines with
    | .error e => .error e
    | .ok P => .ok ⟨lines, L, P⟩

/-- `GCodeFile._get_layer`: exact hit, else the smallest strictly larger
height (with a substitution warning), else no target (above-all warning). -/
def get_layer (layers : List (ℚ × ℕ)) (z : ℚ) : Option ℕ × Option GWarn :=
  if (odLookup layers z).isSome then
    (odLookup layers z, none)
  else
    match (List.insertionSort (· ≤ ·) (layers.map Prod.fst)).filter (fun k => decide (z < k)) with
    | [] => (none, some GWarn.aboveAll)
    | k :: _ => (odLookup layers k, some (GWarn.substituted k))

/-- Models Python `format(v, ".4g")` for the values the verified properties
evaluate it at: positive integers below 10000, which `.4g` renders as their
plain decimal digits.  No verified property depends on the rendering of any
other value; those get a fixed placeholder rendering. -/
def pyFormatG4 (q : ℚ) : String :=
  if q.den = 1 ∧ 0 < q.num ∧ q.num < 10000 then Nat.repr q.num.toNat else "#"

/-- Python `str(...)` as applied by `str.format` to the `message` argument of
`insert_pause` (default `None` renders as the text `None`). -/
def pyStr : Option String → String
  | none => "None"
  | some s => s

/-- `template[2].format(z_offset=v)`. -/
def formatZLine (z_offset : ℚ) : String :=
  "G1 Z" ++ pyFormatG4 z_offset ++ "    ; Raise hot end by " ++ pyFormatG4 z_offset ++ "mm\n"

/-- `template[4].format(x=x_pause, y=y_pause)`. -/
def formatXYLine (x y : ℚ) : String :=
  "G1 X" ++ pyFormatG4 x ++ " Y" ++ pyFormatG4 y ++ "    ; Move the X & Y away from the print\n"

/-- `template[5].format(message=message)`. -/
def formatM0Line (message : Option String) : String :=
  "M0 " ++ pyStr message ++ "    ; Pause and wait for the user\n"

/-- `GCodeFile._get_pause_text`: validate `z_offset`, then `x_pause` and
`y_pause`, then format the parameterized lines of a copy of the template. -/
def get_pause_text (z_offset x_pause y_pause : ℚ) (message : Option String) :
    Except Err (List String) :=
  let text := template
  if 0 < z_offset then
    let text1 := text.set 2 (formatZLine z_offset)
    if 0 < x_pause ∧ 0 < y_pause then
      let text2 := text1.set 4 (formatXYLine x_pause y_pause)
      .ok (text2.set 5 (formatM0Line message))
    else
      .error .valueError
  else
    .error .valueError

/-- The instantiated pause block, written out. -/
def pauseBlock (z_offset x_pause y_pause : ℚ) (message : Option String) : List String :=
  [";BEGIN_PAUSE\n",
   "G91    ; Put in relative mode\n",
   formatZLine z_offset,
   "G90    ; Put back in absolute mode\n",
   formatXYLine x_pause y_pause,
   formatM0Line message,
   ";END_PAUSE\n"]

/-- `GCodeFile.insert_pause`.  The result is the object state after the call
together with the exception that escaped, if any: Python leaves partial
mutations in place when a rebuild raises (`self.lines` is assigned before
`_find_layers` and `_find_pauses` run). -/
def insert_pause (s : GCodeFile) (z z_offset x_pause y_pause : ℚ)
    (message : Option String) : GCodeFile × Option Err :=
  match (get_layer s.layers z).1 with
  | none => (s, none)
  | some line =>
    let insertLine := line + 1
    match get_pause_text z_offset x_pause y_pause message with
    | .error e => (s, some e)
    | .ok block =>
      let lines1 := s.lines.take insertLine ++ block ++ s.lines.drop insertLine
      match find_layers lines1 with
      | .error e => ({ s with lines := lines1 }, some e)
      | .ok L =>
        match find_pauses L lines1 with
        | .error e => ({ s with lines := lines1, layers := L }, some e)
        | .ok P => (⟨lines1, L, P⟩, none)

/-- `GCodeFile.remove_pause`: drop the recorded inclusive range, rebuild; a
missing height only warns. -/
def remove_pause (s : GCodeFile) (height : ℚ) : GCodeFile × Option Err :=
  match odLookup s.pauses height with
  | none => (s, none)
  | some r =>
    let lines1 := s.lines.take r.1 ++ s.lines.drop (r.2 + 1)
    match find_layers lines1 with
    | .error e => ({ s with lines := lines1 }, some e)
    | .ok L =>
      match find_pauses L lines1 with
      | .error e => ({ s with lines := lines1, layers := L }, some e)
      | .ok P => (⟨lines1, L, P⟩, none)

/-- One parsed record of the YAML bulk file: each parameter optional. -/
structure PauseParams where
  z_offset : Option ℚ
  x_pause : Option ℚ
  y_pause : Option ℚ
  message : Option String
deriving DecidableEq, Repr

/-- `self.insert_pause(height, **params)` with the method's defaults
(`z_offset=10`, `x_pause=10`, `y_pause=10`, `message=None`) applied to the
omitted parameters. -/
def applyRecord (s : GCodeFile) (height : ℚ) (p : PauseParams) : GCodeFile × Option Err :=
  insert_pause s height (p.z_offset.getD 10) (p.x_pause.getD 10) (p.y_pause.getD 10) p.message

/-- The record loop of `insert_pauses_from_yaml`: records applied in list
order; an escaping exception halts the remaining records. -/
def runRecords (s : GCodeFile) : List (ℚ × PauseParams) → GCodeFile × Option Err
  | [] => (s, none)
  | r :: rest =>
    match applyRecord s r.1 r.2 with
    | (s1, none) => runRecords s1 rest
    | (s1, some e) => (s1, some e)

/-- `GCodeFile.insert_pauses_from_yaml`, with the file system abstracted: a
missing file is `none` and raises before any record is processed; an existing
file is its parsed, order-preserving record list. -/
def insert_pauses_from_yaml (s : GCodeFile) (file : Option (List (ℚ × PauseParams))) :
    GCodeFile × Option Err :=
  match file with
  | none => (s, some .fileNotFound)
  | some records => runRecords s records

/-- The layer-marker pattern as the specification words it: a semicolon, one
or more digits, optionally a single decimal point followed by zero or more
digits, and nothing else. -/
def specLayerMarker (t : String) : Bool :=
  match t.data with
  | [] => false
  | c :: rest =>
    if c = ';' then
      let d1 := rest.takeWhile Char.isDigit
      let r1 := rest.dropWhile Char.isDigit
      if 0 < d1.length then
        match r1 with
        | [] => true
        | d :: r2 => decide (d = '.') && r2.all Char.isDigit
      else false
    else false

/-- Lines the code's regex matches with two or more literal dots in the
numeric part: these make `float` raise instead of recording a layer. -/
def multiDotMarker (t : String) : Bool :=
  match t.data with
  | [] => false
  | c :: rest =>
    if c = ';' then
      let d1 := rest.takeWhile Char.isDigit
      let r1 := rest.dropWhile Char.isDigit
      let dots := r1.takeWhile fun ch => decide (ch = '.')
      let r2 := r1.dropWhile fun ch => decide (ch = '.')
      let r3 := r2.dropWhile Char.isDigit
      decide (0 < d1.length) && decide (r3 = []) && decide (2 ≤ dots.length)
    else false

/-- Entry-wise renumbering of an index's line numbers. -/
def mapVal (f : ℕ → ℕ) (l : List (ℚ × ℕ)) : List (ℚ × ℕ) :=
  l.map fun e => (e.1, f e.2)

/-! ### Ordered-dictionary lemmas -/

theorem odLookup_nil {α : Type} (k : ℚ) : odLookup ([] : List (ℚ × α)) k = none := rfl

theorem odLookup_cons {α : Type} (e : ℚ × α) (l : List (ℚ × α)) (k : ℚ) :
    odLookup (e :: l) k = if e.1 = k then some e.2 else odLookup l k := by
  by_cases h : e.1 = k
  · simp [odLookup, List.find?_cons_of_pos _ (show (fun x : ℚ × α => decide (x.1 = k)) e = true by simpa using h), h]
  · simp [odLookup, List.find?_cons_of_neg _ (show ¬ (fun x : ℚ × α => decide (x.1 = k)) e = true by simpa using h), h]

theorem odLookup_update_self {α : Type} (l : List (ℚ × α)) (k : ℚ) (v : α) :
    odLookup (odUpdate l k v) k = some v := by
  induction l with
  | nil => simp [odUpdate, odLookup_cons]
  | cons e rest ih =>
    by_cases h : e.1 = k
    · simp [odUpdate, h, odLookup_cons]
    · simp [odUpdate, h, odLookup_cons, ih]

theorem odLookup_update_ne {α : Type} (l : List (ℚ × α)) (k k' : ℚ) (v : α)
    (h : k' ≠ k) : odLookup (odUpdate l k v) k' = odLookup l k' := by
  induction l with
  | nil => simp [odUpdate, odLookup_cons, Ne.symm h]
  | cons e rest ih =>
    by_cases he : e.1 = k
    · have h1 : ¬ (k = k') := Ne.symm h
      have h2 : ¬ (e.1 = k') := by rw [he]; exact h1
      rw [odUpdate, if_pos he, odLookup_cons, odLookup_cons]
      simp only [h1, h2, if_false, ite_false]
    · rw [odUpdate, if_neg he, odLookup_cons, odLookup_cons, ih]

theorem mem_odUpdate {α : Type} (l : List (ℚ × α)) (k : ℚ) (v : α) (e : ℚ × α)
    (h : e ∈ odUpdate l k v) : e = (k, v) ∨ e ∈ l := by
  induction l with
  | nil => simpa [odUpdate] using h
  | cons a rest ih =>
    by_cases ha : a.1 = k
    · rw [odUpdate, if_pos ha] at h
      rcases List.mem_cons.mp h with h1 | h1
      · exact Or.inl h1
      · exact Or.inr (List.mem_cons_of_mem _ h1)
    · rw [odUpdate, if_neg ha] at h
      rcases List.mem_cons.mp h with h1 | h1
      · exact Or.inr (h1 ▸ List.mem_cons_self _ _)
      · rcases ih h1 with h2 | h2
        · exact Or.inl h2
        · exact Or.inr (List.mem_cons_of_mem _ h2)

theorem odLookup_eq_some_mem {α : Type} (l : List (ℚ × α)) (k : ℚ) (v : α)
    (h : odLookup l k = some v) : (k, v) ∈ l := by
  induction l with
  | nil => simp [odLookup_nil] at h
  | cons e rest ih =>
    rw [odLookup_cons] at h
    by_cases he : e.1 = k
    · rw [if_pos he] at h
      have : e = (k, v) := by
        obtain ⟨e1, e2⟩ := e
        simp at he
        simp at h
        simp [he, h]
      exact this ▸ List.mem_cons_self _ _
    · rw [if_neg he] at h
      exact List.mem_cons_of_mem _ (ih h)

theorem odLookup_mapVal (f : ℕ → ℕ) (l : List (ℚ × ℕ)) (k : ℚ) :
    odLookup (mapVal f l) k = (odLookup l k).map f := by
  induction l with
  | nil => rfl
  | cons e rest ih =>
    by_cases he : e.1 = k
    · simp [mapVal, odLookup_cons, he]
    · have h1 : mapVal f (e :: rest) = (e.1, f e.2) :: mapVal f rest := rfl
      rw [h1, odLookup_cons, odLookup_cons]
      simp only [he, if_false, ite_false]
      exact ih

theorem mapVal_odUpdate (f : ℕ → ℕ) (l : List (ℚ × ℕ)) (k : ℚ) (v : ℕ) :
    mapVal f (odUpdate l k v) = odUpdate (mapVal f l) k (f v) := by
  induction l with
  | nil => rfl
  | cons e rest ih =>
    by_cases he : e.1 = k
    · simp [mapVal, odUpdate, he]
    · have h1 : mapVal f (e :: rest) = (e.1, f e.2) :: mapVal f rest := rfl
      rw [odUpdate, if_neg he, h1, odUpdate]
      simp only [he, if_false, ite_false]
      rw [show mapVal f (e :: odUpdate rest k v) = (e.1, f e.2) :: mapVal f (odUpdate rest k v) from rfl, ih]

theorem mapVal_id_of (f : ℕ → ℕ) (l : List (ℚ × ℕ)) (h : ∀ e ∈ l, f e.2 = e.2) :
    mapVal f l = l := by
  induction l with
  | nil => rfl
  | cons e rest ih =>
    have ht := ih fun x hx => h x (List.mem_cons_of_mem _ hx)
    rw [mapVal] at ht ⊢
    rw [List.map_cons, ht, h e (List.mem_cons_self _ _), Prod.mk.eta]

theorem keys_mapVal (f : ℕ → ℕ) (l : List (ℚ × ℕ)) :
    (mapVal f l).map Prod.fst = l.map Prod.fst := by
  simp [mapVal]

theorem keys_mem_odUpdate {α : Type} (l : List (ℚ × α)) (k : ℚ) (v : α) (x : ℚ)
    (h : x ∈ (odUpdate l k v).map Prod.fst) : x = k ∨ x ∈ l.map Prod.fst := by
  rcases List.mem_map.mp h with ⟨e, he, hx⟩
  rcases mem_odUpdate _ _ _ _ he with h1 | h1
  · left; rw [← hx, h1]
  · right; exact List.mem_map.mpr ⟨e, h1, hx⟩

theorem nodup_keys_odUpdate {α : Type} (l : List (ℚ × α)) (k : ℚ) (v : α)
    (h : (l.map Prod.fst).Nodup) : ((odUpdate l k v).map Prod.fst).Nodup := by
  induction l with
  | nil => simp [odUpdate]
  | cons e rest ih =>
    rw [List.map_cons, List.nodup_cons] at h
    by_cases he : e.1 = k
    · rw [odUpdate, if_pos he, List.map_cons, List.nodup_cons]
      exact ⟨he ▸ h.1, h.2⟩
    · rw [odUpdate, if_neg he, List.map_cons, List.nodup_cons]
      refine ⟨fun hmem => ?_, ih h.2⟩
      rcases keys_mem_odUpdate _ _ _ _ hmem with h1 | h1
      · exact he h1
      · exact h.1 h1

theorem nodup_keys_value_eq {α : Type} (l : List (ℚ × α)) (k : ℚ) (a b : α)
    (hnd : (l.map Prod.fst).Nodup) (ha : (k, a) ∈ l) (hb : (k, b) ∈ l) : a = b := by
  induction l with
  | nil => simp at ha
  | cons e rest ih =>
    rw [List.map_cons, List.nodup_cons] at hnd
    rcases List.mem_cons.mp ha with h1 | h1 <;> rcases List.mem_cons.mp hb with h2 | h2
    · exact congrArg Prod.snd (h1.trans h2.symm)
    · exact absurd (List.mem_map.mpr ⟨(k, b), h2, by rw [← h1]⟩) hnd.1
    · exact absurd (List.mem_map.mpr ⟨(k, a), h1, by rw [← h2]⟩) hnd.1
    · exact ih hnd.2 h1 h2

theorem find?_unique {α : Type} (p : α → Bool) (l : List α) (e : α)
    (hmem : e ∈ l) (hp : p e = true) (huniq : ∀ x ∈ l, p x = true → x = e) :
    l.find? p = some e := by
  induction l with
  | nil => simp at hmem
  | cons a rest ih =>
    by_cases ha : p a = true
    · rw [List.find?_cons_of_pos _ ha, huniq a (List.mem_cons_self _ _) ha]
    · rw [List.find?_cons_of_neg _ ha]
      rcases List.mem_cons.mp hmem with h1 | h1
      · exact absurd (h1 ▸ hp) ha
      · exact ih h1 fun x hx => huniq x (List.mem_cons_of_mem _ hx)

/-! ### `find_layers` scan lemmas -/

theorem findLayersAux_append_ok (xs ys : List String) :
    ∀ (i : ℕ) (acc a : List (ℚ × ℕ)), findLayersAux xs i acc = .ok a →
    findLayersAux (xs ++ ys) i acc = findLayersAux ys (i + xs.length) a := by
  induction xs with
  | nil =>
    intro i acc a h
    have : acc = a := by injection h
    subst this
    simp [findLayersAux]
  | cons l rest ih =>
    intro i acc a h
    rw [findLayersAux] at h
    rw [List.cons_append, findLayersAux]
    cases hscan : layerScan l with
    | error e => rw [hscan] at h; exact Except.noConfusion h
    | ok o =>
      rw [hscan] at h
      have hlen : i + 1 + rest.length = i + (l :: rest).length := by
        rw [List.length_cons]; omega
      cases o with
      | none => rw [← hlen]; exact ih (i + 1) acc a h
      | some q => rw [← hlen]; exact ih (i + 1) (odUpdate acc q i) a h

theorem findLayersAux_append_error (xs ys : List String) :
    ∀ (i : ℕ) (acc : List (ℚ × ℕ)) (e : Err), findLayersAux xs i acc = .error e →
    findLayersAux (xs ++ ys) i acc = .error e := by
  induction xs with
  | nil => intro i acc e h; exact absurd h (by simp [findLayersAux])
  | cons l rest ih =>
    intro i acc e h
    rw [findLayersAux] at h
    rw [List.cons_append, findLayersAux]
    cases hscan : layerScan l with
    | error e' => rw [hscan] at h; exact h
    | ok o =>
      rw [hscan] at h
      cases o with
      | none => exact ih (i + 1) acc e h
      | some q => exact ih (i + 1) (odUpdate acc q i) e h

theorem findLayersAux_append_inv (xs ys : List String) (i : ℕ) (acc r : List (ℚ × ℕ))
    (h : findLayersAux (xs ++ ys) i acc = .ok r) :
    ∃ a, findLayersAux xs i acc = .ok a ∧ findLayersAux ys (i + xs.length) a = .ok r := by
  cases hx : findLayersAux xs i acc with
  | error e => rw [findLayersAux_append_error xs ys i acc e hx] at h; exact absurd h (by simp)
  | ok a =>
    rw [findLayersAux_append_ok xs ys i acc a hx] at h
    exact ⟨a, rfl, h⟩

theorem findLayersAux_skip (xs : List String) (hb : ∀ l ∈ xs, layerScan l = .ok none) :
    ∀ (i : ℕ) (acc : List (ℚ × ℕ)), findLayersAux xs i acc = .ok acc := by
  induction xs with
  | nil => intro i acc; rfl
  | cons l rest ih =>
    intro i acc
    rw [findLayersAux, hb l (List.mem_cons_self _ _)]
    exact ih (fun x hx => hb x (List.mem_cons_of_mem _ hx)) (i + 1) acc

theorem findLayersAux_shift (f : ℕ → ℕ) (d : ℕ) (xs : List String) :
    ∀ (p : ℕ) (acc : List (ℚ × ℕ)), (∀ j, p ≤ j → f j = j + d) →
    findLayersAux xs (p + d) (mapVal f acc) = (findLayersAux xs p acc).map (mapVal f) := by
  induction xs with
  | nil => intro p acc hf; rfl
  | cons l rest ih =>
    intro p acc hf
    rw [findLayersAux, findLayersAux]
    cases hscan : layerScan l with
    | error e => rfl
    | ok o =>
      cases o with
      | none =>
        have h1 : p + d + 1 = (p + 1) + d := by omega
        rw [h1]
        exact ih (p + 1) acc fun j hj => hf j (by omega)
      | some q =>
        show findLayersAux rest (p + d + 1) (odUpdate (mapVal f acc) q (p + d)) =
          Except.map (mapVal f) (findLayersAux rest (p + 1) (odUpdate acc q p))
        rw [show p + d + 1 = (p + 1) + d from by omega]
        rw [show p + d = f p from (hf p le_rfl).symm, ← mapVal_odUpdate]
        exact ih (p + 1) (odUpdate acc q p) fun j hj => hf j (by omega)

theorem findLayersAux_entries : ∀ (xs : List String) (i : ℕ) (acc r : List (ℚ × ℕ)),
    findLayersAux xs i acc = .ok r → ∀ e ∈ r,
      e ∈ acc ∨ ∃ j, j < xs.length ∧ e.2 = i + j ∧ layerScan (xs.getD j "") = .ok (some e.1) := by
  intro xs
  induction xs with
  | nil =>
    intro i acc r h e he
    have : acc = r := by injection h
    subst this
    exact Or.inl he
  | cons l rest ih =>
    intro i acc r h e he
    rw [findLayersAux] at h
    cases hscan : layerScan l with
    | error e' => rw [hscan] at h; exact Except.noConfusion h
    | ok o =>
      rw [hscan] at h
      cases o with
      | none =>
        rcases ih (i + 1) acc r h e he with h1 | ⟨j, hj, hval, hsc⟩
        · exact Or.inl h1
        · refine Or.inr ⟨j + 1, by simpa using Nat.succ_lt_succ hj, by omega, ?_⟩
          simpa [List.getD_cons_succ] using hsc
      | some q =>
        rcases ih (i + 1) (odUpdate acc q i) r h e he with h1 | ⟨j, hj, hval, hsc⟩
        · rcases mem_odUpdate _ _ _ _ h1 with h2 | h2
          · refine Or.inr ⟨0, by simp, ?_, ?_⟩
            · rw [h2]; omega
            · rw [List.getD_cons_zero, h2]; exact hscan
          · exact Or.inl h2
        · refine Or.inr ⟨j + 1, by simpa using Nat.succ_lt_succ hj, by omega, ?_⟩
          simpa [List.getD_cons_succ] using hsc

theorem findLayersAux_nodup_keys : ∀ (xs : List String) (i : ℕ) (acc r : List (ℚ × ℕ)),
    (acc.map Prod.fst).Nodup → findLayersAux xs i acc = .ok r →
    (r.map Prod.fst).Nodup := by
  intro xs
  induction xs with
  | nil =>
    intro i acc r hnd h
    have : acc = r := by injection h
    exact this ▸ hnd
  | cons l rest ih =>
    intro i acc r hnd h
    rw [findLayersAux] at h
    cases hscan : layerScan l with
    | error e' => rw [hscan] at h; exact Except.noConfusion h
    | ok o =>
      rw [hscan] at h
      cases o with
      | none => exact ih (i + 1) acc r hnd h
      | some q => exact ih (i + 1) (odUpdate acc q i) r (nodup_keys_odUpdate _ _ _ hnd) h

/-- Splicing a run of non-marker lines into the buffer at position `n`
renumbers the layer index: entries strictly before `n` keep their line
numbers, entries at or after `n` shift by the length of the spliced block. -/
theorem find_layers_splice (lines block : List String) (L : List (ℚ × ℕ)) (n : ℕ)
    (hn : n ≤ lines.length)
    (hb : ∀ l ∈ block, layerScan l = .ok none)
    (hL : find_layers lines = .ok L) :
    find_layers (lines.take n ++ block ++ lines.drop n) =
      .ok (mapVal (fun j => if j < n then j else j + block.length) L) := by
  have hsplit : lines.take n ++ lines.drop n = lines := List.take_append_drop n lines
  have hlenA : (lines.take n).length = n := by rw [List.length_take]; omega
  have h0 : findLayersAux (lines.take n ++ lines.drop n) 0 [] = .ok L := by
    rw [hsplit]; exact hL
  obtain ⟨acc1, hA, hC⟩ := findLayersAux_append_inv _ _ _ _ _ h0
  rw [hlenA, Nat.zero_add] at hC
  have hacc1 : ∀ e ∈ acc1, e.2 < n := by
    intro e he
    rcases findLayersAux_entries _ _ _ _ hA e he with h1 | ⟨j, hj, hval, _⟩
    · simp at h1
    · rw [hlenA] at hj; omega
  have hfixed : mapVal (fun j => if j < n then j else j + block.length) acc1 = acc1 :=
    mapVal_id_of _ _ fun e he => by simp [hacc1 e he]
  rw [find_layers, List.append_assoc]
  rw [findLayersAux_append_ok _ _ _ _ _ hA, hlenA, Nat.zero_add]
  rw [findLayersAux_append_ok block (lines.drop n) n acc1 acc1
    (findLayersAux_skip block hb n acc1)]
  rw [← hfixed]
  rw [findLayersAux_shift _ block.length (lines.drop n) n acc1
    fun j hj => by simp [Nat.not_lt.mpr hj]]
  rw [hC]
  rfl

/-! ### `find_pauses` scan lemmas -/

theorem revLookup_none_of (layers : List (ℚ × ℕ)) (j : ℤ)
    (h : ∀ e ∈ layers, (e.2 : ℤ) ≠ j) : revLookup layers j = none := by
  have hf : layers.reverse.find? (fun e => decide ((e.2 : ℤ) = j)) = none :=
    List.find?_eq_none.mpr fun e he => by simpa using h e (List.mem_reverse.mp he)
  rw [revLookup, hf]
  rfl

theorem revLookup_some_inv (layers : List (ℚ × ℕ)) (j : ℤ) (h0 : ℚ)
    (h : revLookup layers j = some h0) : ∃ v : ℕ, (h0, v) ∈ layers ∧ (v : ℤ) = j := by
  rw [revLookup] at h
  cases hf : layers.reverse.find? (fun e => decide ((e.2 : ℤ) = j)) with
  | none => rw [hf] at h; exact absurd h (by simp)
  | some e =>
    rw [hf] at h
    have hmem : e ∈ layers := List.mem_reverse.mp (List.mem_of_find?_eq_some hf)
    have hpred : ((e.2 : ℤ) = j) := by simpa using List.find?_some hf
    have he1 : e.1 = h0 := by simpa using h
    refine ⟨e.2, ?_, hpred⟩
    rw [← he1, Prod.mk.eta]
    exact hmem

theorem revLookup_some_of (layers : List (ℚ × ℕ)) (h0 : ℚ) (v : ℕ)
    (hmem : (h0, v) ∈ layers)
    (huniq : ∀ e ∈ layers, e.2 = v → e = (h0, v)) :
    revLookup layers (v : ℤ) = some h0 := by
  have hf : layers.reverse.find? (fun e => decide ((e.2 : ℤ) = (v : ℤ))) = some (h0, v) := by
    apply find?_unique
    · exact List.mem_reverse.mpr hmem
    · simp
    · intro x hx hpx
      exact huniq x (List.mem_reverse.mp hx) (by simpa using hpx)
  rw [revLookup, hf]
  rfl

theorem cast_shift (i j : ℕ) : ((i + 1 + j : ℕ) : ℤ) - 1 = ((i + (j + 1) : ℕ) : ℤ) - 1 := by
  push_cast; ring

theorem findPausesAux_error (layers : List (ℚ × ℕ)) :
    ∀ (xs : List String) (i : ℕ) (acc : List (ℚ × (ℕ × ℕ))),
    (∃ j, j < xs.length ∧ isSentinel (xs.getD j "") = true ∧
      revLookup layers (((i + j : ℕ) : ℤ) - 1) = none) →
    findPausesAux layers xs i acc = .error .keyError := by
  intro xs
  induction xs with
  | nil =>
    rintro i acc ⟨j, hj, -, -⟩
    simp at hj
  | cons l rest ih =>
    rintro i acc ⟨j, hj, hs, hr⟩
    rw [findPausesAux]
    by_cases hsl : isSentinel l
    · rw [if_pos hsl]
      cases hrl : revLookup layers ((i : ℤ) - 1) with
      | none => rfl
      | some h0 =>
        cases j with
        | zero =>
          rw [Nat.add_zero] at hr
          rw [hrl] at hr
          exact absurd hr (by simp)
        | succ j' =>
          apply ih (i + 1)
          exact ⟨j', by simpa using Nat.lt_of_succ_lt_succ hj,
            by simpa [List.getD_cons_succ] using hs,
            by rw [cast_shift i j']; exact hr⟩
    · rw [if_neg hsl]
      cases j with
      | zero =>
        rw [List.getD_cons_zero] at hs
        exact absurd hs (by simpa using hsl)
      | succ j' =>
        apply ih (i + 1)
        exact ⟨j', by simpa using Nat.lt_of_succ_lt_succ hj,
          by simpa [List.getD_cons_succ] using hs,
          by rw [cast_shift i j']; exact hr⟩

theorem findPausesAux_lookup_unchanged (layers : List (ℚ × ℕ)) (h0 : ℚ) :
    ∀ (xs : List String) (i : ℕ) (acc r : List (ℚ × (ℕ × ℕ))),
    findPausesAux layers xs i acc = .ok r →
    (∀ j, j < xs.length → isSentinel (xs.getD j "") = true →
      revLookup layers (((i + j : ℕ) : ℤ) - 1) ≠ some h0) →
    odLookup r h0 = odLookup acc h0 := by
  intro xs
  induction xs with
  | nil =>
    intro i acc r h _
    have : acc = r := by injection h
    rw [this]
  | cons l rest ih =>
    intro i acc r h hnone
    rw [findPausesAux] at h
    by_cases hsl : isSentinel l
    · rw [if_pos hsl] at h
      cases hrl : revLookup layers ((i : ℤ) - 1) with
      | none => rw [hrl] at h; exact Except.noConfusion h
      | some h1 =>
        rw [hrl] at h
        have hne : h1 ≠ h0 := by
          intro hh
          refine hnone 0 (by simp) (by simpa using hsl) ?_
          rw [Nat.add_zero, ← hh]
          exact hrl
        rw [ih (i + 1) _ r h fun j hj hs hrv => hnone (j + 1)
          (by simpa using Nat.succ_lt_succ hj)
          (by simpa [List.getD_cons_succ] using hs)
          (by rw [← cast_shift i j]; exact hrv)]
        exact odLookup_update_ne _ _ _ _ (Ne.symm hne)
    · rw [if_neg hsl] at h
      exact ih (i + 1) acc r h fun j hj hs hrv => hnone (j + 1)
        (by simpa using Nat.succ_lt_succ hj)
        (by simpa [List.getD_cons_succ] using hs)
        (by rw [← cast_shift i j]; exact hrv)

theorem findPausesAux_lookup (layers : List (ℚ × ℕ)) (h0 : ℚ) :
    ∀ (xs : List String) (i : ℕ) (acc r : List (ℚ × (ℕ × ℕ))),
    findPausesAux layers xs i acc = .ok r →
    ∀ j, j < xs.length → isSentinel (xs.getD j "") = true →
      revLookup layers (((i + j : ℕ) : ℤ) - 1) = some h0 →
      (∀ j', j' < xs.length → isSentinel (xs.getD j' "") = true →
        revLookup layers (((i + j' : ℕ) : ℤ) - 1) = some h0 → j' = j) →
      odLookup r h0 = some (i + j, i + j + (template.length - 1)) := by
  intro xs
  induction xs with
  | nil =>
    intro i acc r h j hj
    simp at hj
  | cons l rest ih =>
    intro i acc r h j hj hs hrv huniq
    rw [findPausesAux] at h
    by_cases hsl : isSentinel l
    · rw [if_pos hsl] at h
      cases hrl : revLookup layers ((i : ℤ) - 1) with
      | none => rw [hrl] at h; exact Except.noConfusion h
      | some h1 =>
        rw [hrl] at h
        cases j with
        | zero =>
          have hh : h1 = h0 := by
            rw [Nat.add_zero] at hrv
            exact Option.some.inj (hrl.symm.trans hrv)
          subst hh
          rw [findPausesAux_lookup_unchanged layers h1 rest (i + 1) _ r h ?nofurther]
          · rw [Nat.add_zero]
            exact odLookup_update_self _ _ _
          case nofurther =>
            intro j' hj' hs' hrv'
            have h2 := huniq (j' + 1) (by simpa using Nat.succ_lt_succ hj')
              (by simpa [List.getD_cons_succ] using hs')
              (by rw [← cast_shift i j']; exact hrv')
            exact absurd h2 (by simp)
        | succ j'' =>
          have hne : h1 ≠ h0 := by
            intro hh
            have h2 := huniq 0 (by simp) (by simpa using hsl)
              (by rw [Nat.add_zero, ← hh]; exact hrl)
            exact absurd h2 (by simp)
          have hres := ih (i + 1) _ r h j''
            (by simpa using Nat.lt_of_succ_lt_succ hj)
            (by simpa [List.getD_cons_succ] using hs)
            (by rw [cast_shift i j'']; exact hrv)
            ?uniqrest
          · rw [show i + 1 + j'' = i + (j'' + 1) from by omega] at hres
            exact hres
          case uniqrest =>
            intro j2 hj2 hs2 hrv2
            have h2 := huniq (j2 + 1) (by simpa using Nat.succ_lt_succ hj2)
              (by simpa [List.getD_cons_succ] using hs2)
              (by rw [← cast_shift i j2]; exact hrv2)
            omega
    · rw [if_neg hsl] at h
      cases j with
      | zero =>
        rw [List.getD_cons_zero] at hs
        exact absurd hs (by simpa using hsl)
      | succ j'' =>
        have hres := ih (i + 1) acc r h j''
          (by simpa using Nat.lt_of_succ_lt_succ hj)
          (by simpa [List.getD_cons_succ] using hs)
          (by rw [cast_shift i j'']; exact hrv)
          ?uniqrest2
        · rw [show i + 1 + j'' = i + (j'' + 1) from by omega] at hres
          exact hres
        case uniqrest2 =>
          intro j2 hj2 hs2 hrv2
          have h2 := huniq (j2 + 1) (by simpa using Nat.succ_lt_succ hj2)
            (by simpa [List.getD_cons_succ] using hs2)
            (by rw [← cast_shift i j2]; exact hrv2)
          omega

/-! ### Character-level lemmas about stripping and scanning -/

theorem dropWhile_append_single {α : Type} (p : α → Bool) (ys : List α) (a : α)
    (h : p a = false) : (ys ++ [a]).dropWhile p = ys.dropWhile p ++ [a] := by
  induction ys with
  | nil => simp [List.dropWhile_cons, h]
  | cons y ys ih =>
    rw [List.cons_append, List.dropWhile_cons, List.dropWhile_cons]
    by_cases hy : p y = true
    · simp [hy, ih]
    · simp [hy]

theorem stripChar_cons_of_ne (c a : Char) (l : List Char) (h : ¬ a = c) :
    stripChar c (a :: l) = a :: (l.reverse.dropWhile fun x => decide (x = c)).reverse := by
  have hpa : (decide (a = c)) = false := by simpa using h
  rw [stripChar, List.dropWhile_cons, hpa]
  simp only [Bool.false_eq_true, if_false, ite_false]
  rw [List.reverse_cons,
    dropWhile_append_single (fun x => decide (x = c)) l.reverse a hpa, List.reverse_append]
  simp

theorem stripNlCr_data_cons (s : String) (a : Char) (rest : List Char)
    (hdata : s.data = a :: rest) (h2 : ¬ a = '\n') (h3 : ¬ a = '\r') :
    ∃ l2, (stripNlCr s).data = a :: l2 := by
  rw [show (stripNlCr s).data = stripChar '\r' (stripChar '\n' s.data) from rfl, hdata]
  rw [stripChar_cons_of_ne _ _ _ h2, stripChar_cons_of_ne _ _ _ h3]
  exact ⟨_, rfl⟩

theorem layerScan_cons (s : String) (a : Char) (l2 : List Char)
    (hd : (stripNlCr s).data = a :: l2) :
    layerScan s = if a = ';' then layerScanCore l2 else .ok none := by
  unfold layerScan
  rw [hd]

theorem layerScan_head_ne (s : String) (a : Char) (rest : List Char)
    (hdata : s.data = a :: rest) (h1 : ¬ a = ';') (h2 : ¬ a = '\n') (h3 : ¬ a = '\r') :
    layerScan s = .ok none := by
  obtain ⟨l2, hl2⟩ := stripNlCr_data_cons s a rest hdata h2 h3
  rw [layerScan_cons s a l2 hl2, if_neg h1]

theorem layerScan_formatZ (z : ℚ) : layerScan (formatZLine z) = .ok none := by
  obtain ⟨rest, h⟩ : ∃ rest, (formatZLine z).data = 'G' :: rest := ⟨_, rfl⟩
  exact layerScan_head_ne _ 'G' rest h (by decide) (by decide) (by decide)

theorem layerScan_formatXY (x y : ℚ) : layerScan (formatXYLine x y) = .ok none := by
  obtain ⟨rest, h⟩ : ∃ rest, (formatXYLine x y).data = 'G' :: rest := ⟨_, rfl⟩
  exact layerScan_head_ne _ 'G' rest h (by decide) (by decide) (by decide)

theorem layerScan_formatM0 (m : Option String) : layerScan (formatM0Line m) = .ok none := by
  obtain ⟨rest, h⟩ : ∃ rest, (formatM0Line m).data = 'M' :: rest := ⟨_, rfl⟩
  exact layerScan_head_ne _ 'M' rest h (by decide) (by decide) (by decide)

theorem pauseBlock_scan (z x y : ℚ) (m : Option String) :
    ∀ l ∈ pauseBlock z x y m, layerScan l = .ok none := by
  intro l hl
  simp only [pauseBlock, List.mem_cons, List.not_mem_nil, or_false] at hl
  rcases hl with rfl | rfl | rfl | rfl | rfl | rfl | rfl
  · rfl
  · rfl
  · exact layerScan_formatZ z
  · rfl
  · exact layerScan_formatXY x y
  · exact layerScan_formatM0 m
  · rfl

theorem pauseBlock_length (z x y : ℚ) (m : Option String) :
    (pauseBlock z x y m).length = 7 := rfl

theorem pauseBlock_sentinel (z x y : ℚ) (m : Option String) :
    isSentinel ((pauseBlock z x y m).getD 0 "") = true := rfl

/-! ### `_get_pause_text` lemmas -/

theorem get_pause_text_pos (z x y : ℚ) (m : Option String)
    (hz : 0 < z) (hx : 0 < x) (hy : 0 < y) :
    get_pause_text z x y m = .ok (pauseBlock z x y m) := by
  simp only [get_pause_text]
  rw [if_pos hz, if_pos ⟨hx, hy⟩]
  rfl

theorem get_pause_text_ok_inv (z x y : ℚ) (m : Option String) (b : List String)
    (h : get_pause_text z x y m = .ok b) : b = pauseBlock z x y m := by
  simp only [get_pause_text] at h
  by_cases hz : 0 < z
  · rw [if_pos hz] at h
    by_cases hxy : 0 < x ∧ 0 < y
    · rw [if_pos hxy] at h
      injection h with h'
      rw [← h']
      rfl
    · rw [if_neg hxy] at h
      exact Except.noConfusion h
  · rw [if_neg hz] at h
    exact Except.noConfusion h

theorem get_pause_text_neg (z x y : ℚ) (m : Option String)
    (h : ¬ 0 < z ∨ ¬ 0 < x ∨ ¬ 0 < y) :
    get_pause_text z x y m = .error .valueError := by
  simp only [get_pause_text]
  by_cases hz : 0 < z
  · rw [if_pos hz]
    have hxy : ¬ (0 < x ∧ 0 < y) := by
      rcases h with h | h | h
      · exact absurd hz h
      · exact fun hc => h hc.1
      · exact fun hc => h hc.2
    rw [if_neg hxy]
  · rw [if_neg hz]

/-! ### `_get_layer`, `insert_pause` and `remove_pause` structural lemmas -/

theorem get_layer_exact (layers : List (ℚ × ℕ)) (z : ℚ) (m : ℕ)
    (h : odLookup layers z = some m) : get_layer layers z = (some m, none) := by
  unfold get_layer
  rw [h]
  rfl

theorem insert_pause_no_target (s : GCodeFile) (z z0 x0 y0 : ℚ) (msg : Option String)
    (h : (get_layer s.layers z).1 = none) :
    insert_pause s z z0 x0 y0 msg = (s, none) := by
  unfold insert_pause
  rw [h]

theorem getD_append_of_length {α : Type} (A rest : List α) (n : ℕ) (d : α)
    (h : A.length = n) : (A ++ rest).getD n d = rest.getD 0 d := by
  induction A generalizing n with
  | nil =>
    simp at h
    subst h
    rfl
  | cons a A ih =>
    cases n with
    | zero => simp at h
    | succ n' =>
      rw [List.cons_append, List.getD_cons_succ]
      exact ih n' (by simpa using h)

theorem find_layers_scan_at (lines : List String) (L : List (ℚ × ℕ))
    (hL : find_layers lines = .ok L) :
    ∀ e ∈ L, e.2 < lines.length ∧ layerScan (lines.getD e.2 "") = .ok (some e.1) := by
  intro e he
  rcases findLayersAux_entries lines 0 [] L hL e he with h1 | ⟨j, hj, hval, hsc⟩
  · simp at h1
  · rw [Nat.zero_add] at hval
    subst hval
    exact ⟨hj, hsc⟩

theorem find_layers_nodup (lines : List String) (L : List (ℚ × ℕ))
    (hL : find_layers lines = .ok L) : (L.map Prod.fst).Nodup :=
  findLayersAux_nodup_keys lines 0 [] L (by simp) hL

theorem find_layers_val_inj (lines : List String) (L : List (ℚ × ℕ))
    (hL : find_layers lines = .ok L) (h1 h2 : ℚ) (v : ℕ)
    (hm1 : (h1, v) ∈ L) (hm2 : (h2, v) ∈ L) : h1 = h2 := by
  have e1 := (find_layers_scan_at lines L hL (h1, v) hm1).2
  have e2 := (find_layers_scan_at lines L hL (h2, v) hm2).2
  have : Except.ok (ε := Err) (some h1) = Except.ok (some h2) := e1.symm.trans e2
  injection this with h3
  injection h3

theorem insert_pause_ok_inv (s s1 : GCodeFile) (z z0 x0 y0 : ℚ) (msg : Option String) (m : ℕ)
    (hm : odLookup s.layers z = some m)
    (h : insert_pause s z z0 x0 y0 msg = (s1, none)) :
    s1.lines = s.lines.take (m + 1) ++ pauseBlock z0 x0 y0 msg ++ s.lines.drop (m + 1) ∧
    find_layers s1.lines = .ok s1.layers ∧
    find_pauses s1.layers s1.lines = .ok s1.pauses := by
  unfold insert_pause at h
  rw [get_layer_exact s.layers z m hm] at h
  dsimp only at h
  cases hgp : get_pause_text z0 x0 y0 msg with
  | error e =>
    rw [hgp] at h
    dsimp only at h
    exact absurd (congrArg Prod.snd h) (by simp)
  | ok b =>
    rw [hgp] at h
    dsimp only at h
    have hb : b = pauseBlock z0 x0 y0 msg := get_pause_text_ok_inv _ _ _ _ _ hgp
    subst hb
    cases hfl : find_layers (s.lines.take (m + 1) ++ pauseBlock z0 x0 y0 msg ++ s.lines.drop (m + 1)) with
    | error e =>
      rw [hfl] at h
      dsimp only at h
      exact absurd (congrArg Prod.snd h) (by simp)
    | ok L =>
      rw [hfl] at h
      dsimp only at h
      cases hfp : find_pauses L (s.lines.take (m + 1) ++ pauseBlock z0 x0 y0 msg ++ s.lines.drop (m + 1)) with
      | error e =>
        rw [hfp] at h
        dsimp only at h
        exact absurd (congrArg Prod.snd h) (by simp)
      | ok P =>
        rw [hfp] at h
        dsimp only at h
        have hs1 : s1 = ⟨s.lines.take (m + 1) ++ pauseBlock z0 x0 y0 msg ++ s.lines.drop (m + 1), L, P⟩ :=
          (congrArg Prod.fst h).symm
        subst hs1
        exact ⟨rfl, hfl, hfp⟩

/-- Successful insertion at an exact layer height: the buffer is spliced at
the line after the marker, and the rebuilt layer index is the old one with
line numbers after the insertion point shifted by 7. -/
theorem insert_pause_ok_spec (s s1 : GCodeFile) (z z0 x0 y0 : ℚ) (msg : Option String) (m : ℕ)
    (hL : find_layers s.lines = .ok s.layers)
    (hm : odLookup s.layers z = some m)
    (hins : insert_pause s z z0 x0 y0 msg = (s1, none)) :
    m < s.lines.length ∧
    s1.lines = s.lines.take (m + 1) ++ pauseBlock z0 x0 y0 msg ++ s.lines.drop (m + 1) ∧
    s1.layers = mapVal (fun j => if j < m + 1 then j else j + 7) s.layers ∧
    find_layers s1.lines = .ok s1.layers ∧
    find_pauses s1.layers s1.lines = .ok s1.pauses := by
  obtain ⟨hlines1, hfl1, hfp1⟩ := insert_pause_ok_inv s s1 z z0 x0 y0 msg m hm hins
  have hmem : (z, m) ∈ s.layers := odLookup_eq_some_mem _ _ _ hm
  have hmlt : m < s.lines.length := (find_layers_scan_at _ _ hL (z, m) hmem).1
  have hsplice := find_layers_splice s.lines (pauseBlock z0 x0 y0 msg) s.layers (m + 1)
    (by omega) (pauseBlock_scan z0 x0 y0 msg) hL
  rw [pauseBlock_length] at hsplice
  rw [← hlines1] at hsplice
  rw [hfl1] at hsplice
  have hlayers1 : s1.layers = mapVal (fun j => if j < m + 1 then j else j + 7) s.layers := by
    injection hsplice
  exact ⟨hmlt, hlines1, hlayers1, hfl1, hfp1⟩

theorem remove_pause_hit (s : GCodeFile) (hq : ℚ) (st en : ℕ)
    (L : List (ℚ × ℕ)) (P : List (ℚ × (ℕ × ℕ)))
    (h : odLookup s.pauses hq = some (st, en))
    (hfl : find_layers (s.lines.take st ++ s.lines.drop (en + 1)) = .ok L)
    (hfp : find_pauses L (s.lines.take st ++ s.lines.drop (en + 1)) = .ok P) :
    remove_pause s hq = (⟨s.lines.take st ++ s.lines.drop (en + 1), L, P⟩, none) := by
  unfold remove_pause
  rw [h]
  dsimp only
  rw [hfl]
  dsimp only
  rw [hfp]

/-- After a successful insert at exact height `z` (marker at line `m`), the
rebuilt pause index maps `z` to the inclusive range `(m + 1, m + 7)`. -/
theorem insert_pause_pause_entry (s s1 : GCodeFile) (z z0 x0 y0 : ℚ) (msg : Option String) (m : ℕ)
    (hL : find_layers s.lines = .ok s.layers)
    (hm : odLookup s.layers z = some m)
    (hins : insert_pause s z z0 x0 y0 msg = (s1, none)) :
    odLookup s1.pauses z = some (m + 1, m + 7) := by
  obtain ⟨hmlt, hlines1, hlayers1, hfl1, hfp1⟩ :=
    insert_pause_ok_spec s s1 z z0 x0 y0 msg m hL hm hins
  have hmem : (z, m) ∈ s.layers := odLookup_eq_some_mem _ _ _ hm
  have hmem1 : (z, m) ∈ s1.layers := by
    rw [hlayers1, mapVal]
    refine List.mem_map.mpr ⟨(z, m), hmem, ?_⟩
    simp
  have huniqv : ∀ e ∈ s1.layers, e.2 = m → e = (z, m) := by
    intro e he hev
    rw [hlayers1, mapVal] at he
    obtain ⟨e0, he0, heq⟩ := List.mem_map.mp he
    have h2 : (if e0.2 < m + 1 then e0.2 else e0.2 + 7) = m := by
      rw [← heq] at hev
      exact hev
    have h3 : e0.2 = m := by
      by_cases hlt : e0.2 < m + 1
      · rwa [if_pos hlt] at h2
      · rw [if_neg hlt] at h2; omega
    have h5 : (e0.1, m) ∈ s.layers := by
      rw [← h3, Prod.mk.eta]
      exact he0
    have h4 : e0.1 = z := find_layers_val_inj s.lines s.layers hL e0.1 z m h5 hmem
    rw [← heq, h3, h4]
    simp
  have hrev : revLookup s1.layers ((m : ℕ) : ℤ) = some z :=
    revLookup_some_of s1.layers z m hmem1 huniqv
  have hsent : isSentinel (s1.lines.getD (m + 1) "") = true := by
    rw [hlines1, List.append_assoc,
      getD_append_of_length (s.lines.take (m + 1)) _ (m + 1) "" (by rw [List.length_take]; omega)]
    rfl
  have hlen1 : s1.lines.length = s.lines.length + 7 := by
    rw [hlines1]
    simp [List.length_append, List.length_take, List.length_drop, pauseBlock_length]
    omega
  have hrv : revLookup s1.layers (((0 + (m + 1) : ℕ) : ℤ) - 1) = some z := by
    rw [show (((0 + (m + 1) : ℕ) : ℤ) - 1) = ((m : ℕ) : ℤ) from by push_cast; ring]
    exact hrev
  have huniqpos : ∀ j', j' < s1.lines.length → isSentinel (s1.lines.getD j' "") = true →
      revLookup s1.layers (((0 + j' : ℕ) : ℤ) - 1) = some z → j' = m + 1 := by
    intro j' hj' hs' hr'
    obtain ⟨v, hvmem, hvj⟩ := revLookup_some_inv s1.layers _ z hr'
    have hnd1 : (s1.layers.map Prod.fst).Nodup := by
      rw [hlayers1, keys_mapVal]
      exact find_layers_nodup _ _ hL
    have hv : v = m := nodup_keys_value_eq s1.layers z v m hnd1 hvmem hmem1
    omega
  have happ := findPausesAux_lookup s1.layers z s1.lines 0 [] s1.pauses hfp1 (m + 1)
    (by omega) hsent hrv huniqpos
  rw [Nat.zero_add, show template.length - 1 = 6 from rfl,
    show m + 1 + 6 = m + 7 from by omega] at happ
  exact happ

/-! ### Claim theorems -/

/-- C1: for every loaded file (both indices built from the buffer), every
height that is an exact key of the layer index, and every call for which the
insertion completes without an exception, removing the pause at that height
immediately after inserting it restores the line buffer byte-for-byte, and in
fact the whole object state: `remove_pause` after the `insert_pause` returns
exactly the original state with no error. -/
theorem c1_round_trip (s s1 : GCodeFile) (hq : ℚ) (m : ℕ) (z0 x0 y0 : ℚ) (msg : Option String)
    (hL : find_layers s.lines = .ok s.layers)
    (hP : find_pauses s.layers s.lines = .ok s.pauses)
    (hm : odLookup s.layers hq = some m)
    (hins : insert_pause s hq z0 x0 y0 msg = (s1, none)) :
    remove_pause s1 hq = (s, none) := by
  obtain ⟨hmlt, hlines1, hlayers1, hfl1, hfp1⟩ :=
    insert_pause_ok_spec s s1 hq z0 x0 y0 msg m hL hm hins
  have hpe : odLookup s1.pauses hq = some (m + 1, m + 7) :=
    insert_pause_pause_entry s s1 hq z0 x0 y0 msg m hL hm hins
  have htake : s1.lines.take (m + 1) = s.lines.take (m + 1) := by
    rw [hlines1, List.append_assoc]
    exact List.take_left' (by rw [List.length_take]; omega)
  have hdrop : s1.lines.drop (m + 7 + 1) = s.lines.drop (m + 1) := by
    rw [hlines1,
      show m + 7 + 1 = (s.lines.take (m + 1) ++ pauseBlock z0 x0 y0 msg).length from by
        rw [List.length_append, List.length_take, pauseBlock_length]; omega]
    exact List.drop_left _ _
  have hrestore : s1.lines.take (m + 1) ++ s1.lines.drop (m + 7 + 1) = s.lines := by
    rw [htake, hdrop, List.take_append_drop]
  have hfl2 : find_layers (s1.lines.take (m + 1) ++ s1.lines.drop (m + 7 + 1)) = .ok s.layers := by
    rw [hrestore]; exact hL
  have hfp2 : find_pauses s.layers (s1.lines.take (m + 1) ++ s1.lines.drop (m + 7 + 1)) =
      .ok s.pauses := by
    rw [hrestore]; exact hP
  have hrm := remove_pause_hit s1 hq (m + 1) (m + 7) s.layers s.pauses hpe hfl2 hfp2
  rw [hrestore] at hrm
  exact hrm

/-- Witness for C1: a concrete two-line file, insert at exact height 10 then
remove, restoring the original state. -/
theorem c1_round_trip_witness :
    remove_pause
      ⟨[";10\n", ";BEGIN_PAUSE\n", "G91    ; Put in relative mode\n",
        "G1 Z10    ; Raise hot end by 10mm\n", "G90    ; Put back in absolute mode\n",
        "G1 X10 Y10    ; Move the X & Y away from the print\n",
        "M0 None    ; Pause and wait for the user\n", ";END_PAUSE\n", "G1 X1\n"],
       [(10, 0)], [(10, (1, 7))]⟩ 10 =
      (⟨[";10\n", "G1 X1\n"], [(10, 0)], []⟩, none) :=
  c1_round_trip ⟨[";10\n", "G1 X1\n"], [(10, 0)], []⟩
    ⟨[";10\n", ";BEGIN_PAUSE\n", "G91    ; Put in relative mode\n",
      "G1 Z10    ; Raise hot end by 10mm\n", "G90    ; Put back in absolute mode\n",
      "G1 X10 Y10    ; Move the X & Y away from the print\n",
      "M0 None    ; Pause and wait for the user\n", ";END_PAUSE\n", "G1 X1\n"],
     [(10, 0)], [(10, (1, 7))]⟩
    10 0 10 10 10 none (by decide) (by decide) (by decide) (by decide)

/-- C7: inserting at an exact existing height leaves the layer-index key
sequence unchanged (same heights, same order, hence same size), keeps the
line numbers of layers at or before the insertion point, and shifts the line
number of every layer after it by exactly 7. -/
theorem c7_layer_shift (s s1 : GCodeFile) (hq : ℚ) (m : ℕ) (z0 x0 y0 : ℚ) (msg : Option String)
    (hL : find_layers s.lines = .ok s.layers)
    (hm : odLookup s.layers hq = some m)
    (hins : insert_pause s hq z0 x0 y0 msg = (s1, none)) :
    s1.layers = s.layers.map (fun e => (e.1, if e.2 ≤ m then e.2 else e.2 + 7)) ∧
    s1.layers.map Prod.fst = s.layers.map Prod.fst := by
  obtain ⟨-, -, hlayers1, -, -⟩ := insert_pause_ok_spec s s1 hq z0 x0 y0 msg m hL hm hins
  constructor
  · rw [hlayers1, mapVal]
    apply List.map_congr_left
    intro e _
    have : e.2 < m + 1 ↔ e.2 ≤ m := Nat.lt_succ_iff
    by_cases hc : e.2 ≤ m
    · rw [if_pos hc, if_pos (this.mpr hc)]
    · rw [if_neg hc, if_neg (fun hh => hc (this.mp hh))]
  · rw [hlayers1, keys_mapVal]

/-- Witness for C7 at a concrete two-line file. -/
theorem c7_layer_shift_witness :
    (⟨[";10\n", ";BEGIN_PAUSE\n", "G91    ; Put in relative mode\n",
       "G1 Z10    ; Raise hot end by 10mm\n", "G90    ; Put back in absolute mode\n",
       "G1 X10 Y10    ; Move the X & Y away from the print\n",
       "M0 None    ; Pause and wait for the user\n", ";END_PAUSE\n", "G1 X1\n"],
      [(10, 0)], [(10, (1, 7))]⟩ : GCodeFile).layers =
      (⟨[";10\n", "G1 X1\n"], [(10, 0)], []⟩ : GCodeFile).layers.map
        (fun e => (e.1, if e.2 ≤ 0 then e.2 else e.2 + 7)) ∧
    (⟨[";10\n", ";BEGIN_PAUSE\n", "G91    ; Put in relative mode\n",
       "G1 Z10    ; Raise hot end by 10mm\n", "G90    ; Put back in absolute mode\n",
       "G1 X10 Y10    ; Move the X & Y away from the print\n",
       "M0 None    ; Pause and wait for the user\n", ";END_PAUSE\n", "G1 X1\n"],
      [(10, 0)], [(10, (1, 7))]⟩ : GCodeFile).layers.map Prod.fst =
      (⟨[";10\n", "G1 X1\n"], [(10, 0)], []⟩ : GCodeFile).layers.map Prod.fst :=
  c7_layer_shift ⟨[";10\n", "G1 X1\n"], [(10, 0)], []⟩ _ 10 0 10 10 10 none
    (by decide) (by decide) (by decide)

/-- C2 counterexample: on a loaded two-line file, calling insert twice at the
exact height 10 with valid parameters does not succeed: the second call raises
`KeyError` (while rebuilding the pause index), contradicting the claim that
two stacked blocks are produced with no error. -/
theorem c2_counterexample :
    (insert_pause (insert_pause ⟨[";10\n", "G1 X1\n"], [(10, 0)], []⟩ 10 10 10 10 none).1
      10 10 10 10 none).2 = some Err.keyError := by decide

/-- C2 (amended): on a loaded file, after a first successful insert at the
exact height of the marker at line `m`, a second insert at the same height
with valid parameters does splice a second 7-line block directly after the
marker — the buffer then holds the two stacked blocks, newest first, with no
deduplication — but the call raises `KeyError` while rebuilding the pause
index, because the second block's sentinel is now preceded by the first
block's closing line rather than by a layer marker. -/
theorem c2_double_insert (s s1 : GCodeFile) (hq : ℚ) (m : ℕ)
    (z0 x0 y0 : ℚ) (msg : Option String) (z1 x1 y1 : ℚ) (msg1 : Option String)
    (hL : find_layers s.lines = .ok s.layers)
    (hm : odLookup s.layers hq = some m)
    (hins : insert_pause s hq z0 x0 y0 msg = (s1, none))
    (hz1 : 0 < z1) (hx1 : 0 < x1) (hy1 : 0 < y1) :
    (insert_pause s1 hq z1 x1 y1 msg1).2 = some Err.keyError ∧
    (insert_pause s1 hq z1 x1 y1 msg1).1.lines =
      s.lines.take (m + 1) ++ pauseBlock z1 x1 y1 msg1 ++ pauseBlock z0 x0 y0 msg ++
        s.lines.drop (m + 1) := by
  obtain ⟨hmlt, hlines1, hlayers1, hfl1, hfp1⟩ :=
    insert_pause_ok_spec s s1 hq z0 x0 y0 msg m hL hm hins
  have hm1 : odLookup s1.layers hq = some m := by
    rw [hlayers1, odLookup_mapVal, hm]
    simp
  have hlen1 : s1.lines.length = s.lines.length + 7 := by
    rw [hlines1]
    simp [List.length_append, List.length_take, List.length_drop, pauseBlock_length]
    omega
  have htake1 : s1.lines.take (m + 1) = s.lines.take (m + 1) := by
    rw [hlines1, List.append_assoc]
    exact List.take_left' (by rw [List.length_take]; omega)
  have hdrop1 : s1.lines.drop (m + 1) =
      pauseBlock z0 x0 y0 msg ++ s.lines.drop (m + 1) := by
    rw [hlines1, List.append_assoc]
    exact List.drop_left' (by rw [List.length_take]; omega)
  have hfl2 := find_layers_splice s1.lines (pauseBlock z1 x1 y1 msg1) s1.layers (m + 1)
    (by omega) (pauseBlock_scan z1 x1 y1 msg1) hfl1
  rw [pauseBlock_length] at hfl2
  have hsent2 : isSentinel ((s1.lines.take (m + 1) ++ pauseBlock z1 x1 y1 msg1 ++
      s1.lines.drop (m + 1)).getD (m + 8) "") = true := by
    rw [hdrop1,
      getD_append_of_length (s1.lines.take (m + 1) ++ pauseBlock z1 x1 y1 msg1) _ (m + 8) ""
        (by rw [List.length_append, List.length_take, pauseBlock_length]; omega)]
    rfl
  have hrevnone : revLookup
      (mapVal (fun j => if j < m + 1 then j else j + 7) s1.layers)
      (((0 + (m + 8) : ℕ) : ℤ) - 1) = none := by
    apply revLookup_none_of
    intro e he
    rw [hlayers1, mapVal, mapVal] at he
    obtain ⟨e1, he1, heq1⟩ := List.mem_map.mp he
    obtain ⟨e0, he0, heq0⟩ := List.mem_map.mp he1
    rw [← heq1, ← heq0]
    dsimp only
    split_ifs <;> (push_cast; omega)
  have hfp2 : find_pauses (mapVal (fun j => if j < m + 1 then j else j + 7) s1.layers)
      (s1.lines.take (m + 1) ++ pauseBlock z1 x1 y1 msg1 ++ s1.lines.drop (m + 1)) =
      .error .keyError := by
    apply findPausesAux_error
    refine ⟨m + 8, ?_, hsent2, hrevnone⟩
    rw [List.length_append, List.length_append, List.length_take, pauseBlock_length,
      List.length_drop]
    omega
  unfold insert_pause
  rw [get_layer_exact s1.layers hq m hm1]
  dsimp only
  rw [get_pause_text_pos z1 x1 y1 msg1 hz1 hx1 hy1]
  dsimp only
  rw [hfl2]
  dsimp only
  rw [hfp2]
  dsimp only
  refine ⟨rfl, ?_⟩
  rw [htake1, hdrop1]
  simp [List.append_assoc]

/-- Witness for the amended C2 at a concrete two-line file. -/
theorem c2_double_insert_witness :
    (insert_pause
      ⟨[";10\n", ";BEGIN_PAUSE\n", "G91    ; Put in relative mode\n",
        "G1 Z10    ; Raise hot end by 10mm\n", "G90    ; Put back in absolute mode\n",
        "G1 X10 Y10    ; Move the X & Y away from the print\n",
        "M0 None    ; Pause and wait for the user\n", ";END_PAUSE\n", "G1 X1\n"],
       [(10, 0)], [(10, (1, 7))]⟩ 10 10 10 10 none).2 = some Err.keyError ∧
    (insert_pause
      ⟨[";10\n", ";BEGIN_PAUSE\n", "G91    ; Put in relative mode\n",
        "G1 Z10    ; Raise hot end by 10mm\n", "G90    ; Put back in absolute mode\n",
        "G1 X10 Y10    ; Move the X & Y away from the print\n",
        "M0 None    ; Pause and wait for the user\n", ";END_PAUSE\n", "G1 X1\n"],
       [(10, 0)], [(10, (1, 7))]⟩ 10 10 10 10 none).1.lines =
      [";10\n", "G1 X1\n"].take (0 + 1) ++ pauseBlock 10 10 10 none ++
        pauseBlock 10 10 10 none ++ [";10\n", "G1 X1\n"].drop (0 + 1) :=
  c2_double_insert ⟨[";10\n", "G1 X1\n"], [(10, 0)], []⟩ _ 10 0 10 10 10 none 10 10 10 none
    (by decide) (by decide) (by decide) (by decide) (by decide) (by decide)

/-- C3: layer resolution returns the stored line number on an exact hit, with
no warning; otherwise, when some key is strictly greater than `z`, it returns
the line of the smallest such key together with a substitution warning naming
it; otherwise it returns no target with an above-all warning, and in that
case `insert_pause` leaves the state unchanged and reports no error. -/
theorem c3_get_layer (layers : List (ℚ × ℕ)) (z : ℚ) :
    (∀ m, odLookup layers z = some m → get_layer layers z = (some m, none)) ∧
    (odLookup layers z = none →
      ∀ k, k ∈ layers.map Prod.fst → z < k →
        (∀ k', k' ∈ layers.map Prod.fst → z < k' → k ≤ k') →
        get_layer layers z = (odLookup layers k, some (GWarn.substituted k))) ∧
    (odLookup layers z = none → (∀ k' ∈ layers.map Prod.fst, k' ≤ z) →
      get_layer layers z = (none, some GWarn.aboveAll)) ∧
    (∀ s : GCodeFile, ∀ z0 x0 y0 msg, s.layers = layers →
      (get_layer layers z).1 = none → insert_pause s z z0 x0 y0 msg = (s, none)) := by
  refine ⟨get_layer_exact layers z, ?_, ?_, ?_⟩
  · intro hnone k hk hzk hmin
    unfold get_layer
    rw [hnone, if_neg (by simp)]
    have hsorted : (List.insertionSort (· ≤ ·) (layers.map Prod.fst)).Sorted (· ≤ ·) :=
      List.sorted_insertionSort _ _
    have hslsorted : ((List.insertionSort (· ≤ ·) (layers.map Prod.fst)).filter
        (fun x => decide (z < x))).Sorted (· ≤ ·) := List.Pairwise.filter _ hsorted
    have hmemsl : k ∈ (List.insertionSort (· ≤ ·) (layers.map Prod.fst)).filter
        (fun x => decide (z < x)) :=
      List.mem_filter.mpr ⟨(List.perm_insertionSort _ _).mem_iff.mpr hk, by simpa using hzk⟩
    cases hcase : (List.insertionSort (· ≤ ·) (layers.map Prod.fst)).filter
        (fun x => decide (z < x)) with
    | nil => rw [hcase] at hmemsl; simp at hmemsl
    | cons k0 tl =>
      have hk0 : k0 ∈ (List.insertionSort (· ≤ ·) (layers.map Prod.fst)).filter
          (fun x => decide (z < x)) := by
        rw [hcase]; exact List.mem_cons_self _ _
      have hk0prop := List.mem_filter.mp hk0
      have hk0key : k0 ∈ layers.map Prod.fst :=
        (List.perm_insertionSort _ _).mem_iff.mp hk0prop.1
      have hk0gt : z < k0 := by simpa using hk0prop.2
      have h1 : k ≤ k0 := hmin k0 hk0key hk0gt
      have h2 : k0 ≤ k := by
        rw [hcase] at hmemsl
        rcases List.mem_cons.mp hmemsl with h | h
        · exact le_of_eq h.symm
        · rw [hcase] at hslsorted
          exact (List.sorted_cons.mp hslsorted).1 k h
      rw [le_antisymm h2 h1]
  · intro hnone hall
    unfold get_layer
    rw [hnone, if_neg (by simp)]
    have hfil : (List.insertionSort (· ≤ ·) (layers.map Prod.fst)).filter
        (fun x => decide (z < x)) = [] := by
      rw [List.filter_eq_nil_iff]
      intro a ha
      have hm : a ∈ layers.map Prod.fst := (List.perm_insertionSort _ _).mem_iff.mp ha
      simpa using not_lt.mpr (hall a hm)
    rw [hfil]
  · intro s z0 x0 y0 msg hsl hnone
    exact insert_pause_no_target s z z0 x0 y0 msg (by rw [hsl]; exact hnone)

/-- Witness for C3: heights 10, 20, 30 and requested height 15 resolve to
layer 20's line with a substitution warning. -/
theorem c3_get_layer_witness :
    get_layer [((10 : ℚ), 0), (20, 5), (30, 9)] 15 = (some 5, some (GWarn.substituted 20)) :=
  ((c3_get_layer [((10 : ℚ), 0), (20, 5), (30, 9)] 15).2.1 (by decide) 20 (by decide)
    (by decide) (by decide)).trans (by decide)

/-- C4 counterexample: with the requested height above every layer and the
invalid parameter `z_offset = 0`, `insert_pause` raises no error at all —
layer resolution returns no target first and the call silently does nothing —
contradicting the claim that a ValueError is raised on every call with a
non-positive parameter. -/
theorem c4_counterexample :
    ¬ (0 : ℚ) < 0 ∧
    insert_pause ⟨[";10\n"], [(10, 0)], []⟩ 50 0 10 10 none =
      (⟨[";10\n"], [(10, 0)], []⟩, none) :=
  ⟨by decide, by decide⟩

/-- C4 (amended): a call with a non-positive `z_offset`, `x_pause` or
`y_pause` never mutates the state — the buffer and both indices come back
exactly as they were — and it raises ValueError precisely when layer
resolution yields a target line; when the height resolves to no target the
call returns silently with no error. -/
theorem c4_invalid_params (s : GCodeFile) (z z0 x0 y0 : ℚ) (msg : Option String)
    (hbad : ¬ 0 < z0 ∨ ¬ 0 < x0 ∨ ¬ 0 < y0) :
    (insert_pause s z z0 x0 y0 msg).1 = s ∧
    (∀ m, (get_layer s.layers z).1 = some m →
      (insert_pause s z z0 x0 y0 msg).2 = some Err.valueError) ∧
    ((get_layer s.layers z).1 = none → (insert_pause s z z0 x0 y0 msg).2 = none) := by
  cases hg : (get_layer s.layers z).1 with
  | none =>
    rw [insert_pause_no_target s z z0 x0 y0 msg hg]
    exact ⟨rfl, fun m hm => Option.noConfusion hm, fun _ => rfl⟩
  | some m =>
    have hres : insert_pause s z z0 x0 y0 msg = (s, some Err.valueError) := by
      unfold insert_pause
      rw [hg]
      dsimp only
      rw [get_pause_text_neg z0 x0 y0 msg hbad]
    rw [hres]
    exact ⟨rfl, fun _ _ => rfl, fun hh => Option.noConfusion hh⟩

/-- Witness for the amended C4: exact height 10 with `z_offset = 0` raises
ValueError. -/
theorem c4_invalid_params_witness :
    (insert_pause ⟨[";10\n"], [(10, 0)], []⟩ 10 0 10 10 none).2 = some Err.valueError :=
  (c4_invalid_params ⟨[";10\n"], [(10, 0)], []⟩ 10 0 10 10 none
    (Or.inl (by decide))).2.1 0 (by decide)

/-- C6 counterexample: with the message parameter left unset the produced
sixth line embeds the literal text `None` where the placeholder was; it is
not the template line with an empty substitution. -/
theorem c6_counterexample :
    get_pause_text 10 10 10 none = .ok (pauseBlock 10 10 10 none) ∧
    (pauseBlock 10 10 10 none).getD 5 "" = "M0 None    ; Pause and wait for the user\n" ∧
    "M0 None    ; Pause and wait for the user\n" ≠ "M0     ; Pause and wait for the user\n" :=
  ⟨by decide, rfl, by decide⟩

/-- C6 (amended): for valid parameters the instantiation succeeds and the
sixth produced line is the template text with the message placeholder
replaced by Python's `str` of the argument: the literal text `None` when the
message is unset (`pyStr none = "None"`), and the message text verbatim when
one is given. -/
theorem c6_message_line (z0 x0 y0 : ℚ) (msg : Option String)
    (hz : 0 < z0) (hx : 0 < x0) (hy : 0 < y0) :
    get_pause_text z0 x0 y0 msg = .ok (pauseBlock z0 x0 y0 msg) ∧
    (pauseBlock z0 x0 y0 msg).getD 5 "" =
      "M0 " ++ pyStr msg ++ "    ; Pause and wait for the user\n" ∧
    pyStr none = "None" :=
  ⟨get_pause_text_pos z0 x0 y0 msg hz hx hy, rfl, rfl⟩

/-- Witness for the amended C6: an explicit message is inserted verbatim. -/
theorem c6_message_line_witness :
    get_pause_text 10 10 10 (some "Change filament") =
      .ok (pauseBlock 10 10 10 (some "Change filament")) ∧
    (pauseBlock 10 10 10 (some "Change filament")).getD 5 "" =
      "M0 " ++ "Change filament" ++ "    ; Pause and wait for the user\n" ∧
    pyStr none = "None" :=
  c6_message_line 10 10 10 (some "Change filament") (by decide) (by decide) (by decide)

/-- C8: whenever the pause scan finds a line matching the pause-opening
sentinel whose immediately preceding line number is not a value of the layer
index (the reverse lookup fails), `_find_pauses` raises `KeyError` instead of
returning any pause index at all — no pause is ever silently associated with
a wrong height. -/
theorem c8_sentinel_mismatch (layers : List (ℚ × ℕ)) (lines : List String)
    (hex : ∃ j, j < lines.length ∧ isSentinel (lines.getD j "") = true ∧
      ∀ e ∈ layers, (e.2 : ℤ) ≠ (j : ℤ) - 1) :
    find_pauses layers lines = .error .keyError := by
  obtain ⟨j, hj, hs, hr⟩ := hex
  apply findPausesAux_error
  refine ⟨j, hj, hs, ?_⟩
  rw [show (((0 + j : ℕ) : ℤ) - 1) = ((j : ℤ) - 1) from by push_cast; ring]
  exact revLookup_none_of layers _ hr

/-- Witness for C8: a sentinel on the very first line (no preceding layer
marker) makes the scan raise `KeyError`. -/
theorem c8_sentinel_mismatch_witness :
    find_pauses [] [";BEGIN_PAUSE\n"] = .error .keyError :=
  c8_sentinel_mismatch [] [";BEGIN_PAUSE\n"] ⟨0, by decide, by decide, by simp⟩

/-- C9: bulk insertion from a missing file raises not-found with the state
untouched, before any record is processed; from a present file the records
are applied strictly in list order by repeated single inserts, with the
method defaults substituted for omitted parameters, and a record whose
insertion raises returns immediately with the state reached so far (no
rollback) while the remaining records are never attempted. -/
theorem c9_bulk_insert (s : GCodeFile) (recs1 recs2 : List (ℚ × PauseParams)) :
    insert_pauses_from_yaml s none = (s, some Err.fileNotFound) ∧
    insert_pauses_from_yaml s (some (recs1 ++ recs2)) =
      (match runRecords s recs1 with
       | (s1, none) => runRecords s1 recs2
       | (s1, some e) => (s1, some e)) ∧
    (∀ hq p, applyRecord s hq p =
      insert_pause s hq (p.z_offset.getD 10) (p.x_pause.getD 10) (p.y_pause.getD 10)
        p.message) ∧
    (∀ hq p s1 e rest, applyRecord s hq p = (s1, some e) →
      runRecords s ((hq, p) :: rest) = (s1, some e)) := by
  refine ⟨rfl, ?_, fun hq p => rfl, fun hq p s1 e rest har => ?_⟩
  · show runRecords s (recs1 ++ recs2) = _
    induction recs1 generalizing s with
    | nil => simp only [List.nil_append, runRecords]
    | cons r rest ih =>
      rw [List.cons_append]
      simp only [runRecords]
      cases har : applyRecord s r.1 r.2 with
      | mk s1 oe =>
        cases oe with
        | none => exact ih s1
        | some e => rfl
  · simp only [runRecords, har]

/-- Witness for C9: a two-record list whose first record is invalid halts at
the first record with the state unchanged and a ValueError; the second record
is never attempted. -/
theorem c9_bulk_insert_witness :
    runRecords ⟨[";10\n", "G1 X1\n"], [(10, 0)], []⟩
      [((10 : ℚ), ⟨some 0, none, none, none⟩), ((20 : ℚ), ⟨none, none, none, none⟩)] =
      (⟨[";10\n", "G1 X1\n"], [(10, 0)], []⟩, some Err.valueError) :=
  (c9_bulk_insert ⟨[";10\n", "G1 X1\n"], [(10, 0)], []⟩ [] []).2.2.2 10
    ⟨some 0, none, none, none⟩ ⟨[";10\n", "G1 X1\n"], [(10, 0)], []⟩ Err.valueError
    [((20 : ℚ), ⟨none, none, none, none⟩)] (by decide)

/-! ### C5: the layer-marker pattern -/

theorem dropWhile_cases {α : Type} (p : α → Bool) (l : List α) :
    l.dropWhile p = [] ∨ ∃ x xs, l.dropWhile p = x :: xs ∧ p x = false := by
  induction l with
  | nil => exact Or.inl rfl
  | cons a l ih =>
    rw [List.dropWhile_cons]
    by_cases ha : p a = true
    · rw [if_pos ha]; exact ih
    · rw [if_neg ha]
      exact Or.inr ⟨a, l, rfl, by simpa using ha⟩

theorem dropWhile_eq_self_of_takeWhile_nil {α : Type} (p : α → Bool) (l : List α)
    (h : l.takeWhile p = []) : l.dropWhile p = l := by
  cases l with
  | nil => rfl
  | cons a l =>
    rw [List.takeWhile_cons] at h
    by_cases ha : p a = true
    · rw [if_pos ha] at h; exact absurd h (by simp)
    · rw [List.dropWhile_cons, if_neg ha]

theorem takeWhile_cons_inv {α : Type} (p : α → Bool) (l : List α) (x : α) (xs : List α)
    (h : l.takeWhile p = x :: xs) : p x = true ∧ ∃ l', l = x :: l' := by
  cases l with
  | nil => simp at h
  | cons a l =>
    rw [List.takeWhile_cons] at h
    by_cases ha : p a = true
    · rw [if_pos ha] at h
      obtain ⟨h1, -⟩ := List.cons.inj h
      exact ⟨h1 ▸ ha, l, h1 ▸ rfl⟩
    · rw [if_neg ha] at h; exact absurd h (by simp)

theorem layerScanCore_ok_iff (rest : List Char) :
    (∃ q, layerScanCore rest = .ok (some q)) ↔
      (0 < (rest.takeWhile Char.isDigit).length ∧
        (((rest.dropWhile Char.isDigit).dropWhile fun ch => decide (ch = '.')).dropWhile
          Char.isDigit) = [] ∧
        ((rest.dropWhile Char.isDigit).takeWhile fun ch => decide (ch = '.')).length ≤ 1) := by
  simp only [layerScanCore]
  split_ifs with h1 h2
  · refine iff_of_true ⟨_, rfl⟩ ⟨h1.1, h1.2, h2⟩
  · refine iff_of_false (by simp) ?_
    rintro ⟨-, -, hc⟩; exact h2 hc
  · refine iff_of_false (by simp) ?_
    rintro ⟨ha, hb, -⟩; exact h1 ⟨ha, hb⟩

theorem layerScanCore_err_iff (rest : List Char) :
    layerScanCore rest = .error .valueError ↔
      (0 < (rest.takeWhile Char.isDigit).length ∧
        (((rest.dropWhile Char.isDigit).dropWhile fun ch => decide (ch = '.')).dropWhile
          Char.isDigit) = [] ∧
        2 ≤ ((rest.dropWhile Char.isDigit).takeWhile fun ch => decide (ch = '.')).length) := by
  simp only [layerScanCore]
  split_ifs with h1 h2
  · refine iff_of_false (by simp) ?_
    rintro ⟨-, -, hc⟩; omega
  · refine iff_of_true (by simp) ⟨h1.1, h1.2, by omega⟩
  · refine iff_of_false (by simp) ?_
    rintro ⟨ha, hb, -⟩; exact h1 ⟨ha, hb⟩

theorem spec_pattern_iff (rest : List Char) :
    ((((rest.dropWhile Char.isDigit).dropWhile fun ch => decide (ch = '.')).dropWhile
        Char.isDigit) = [] ∧
      ((rest.dropWhile Char.isDigit).takeWhile fun ch => decide (ch = '.')).length ≤ 1) ↔
    (match rest.dropWhile Char.isDigit with
     | [] => true
     | d :: r2 => decide (d = '.') && r2.all Char.isDigit) = true := by
  rcases dropWhile_cases Char.isDigit rest with hr1 | ⟨d, r2', hr1, hd⟩
  · rw [hr1]
    simp
  · rw [hr1]
    by_cases hdot : d = '.'
    · subst hdot
      rw [List.takeWhile_cons, if_pos (by simp), List.dropWhile_cons, if_pos (by simp)]
      cases htw : r2'.takeWhile (fun ch => decide (ch = '.')) with
      | nil =>
        rw [dropWhile_eq_self_of_takeWhile_nil _ _ htw]
        simp [List.dropWhile_eq_nil_iff, List.all_eq_true]
      | cons e tw' =>
        obtain ⟨hpe, l', hr2'⟩ := takeWhile_cons_inv _ _ _ _ htw
        have he : e = '.' := by simpa using hpe
        subst he
        refine iff_of_false ?_ ?_
        · rintro ⟨-, hlen⟩
          simp at hlen
        · intro hall
          rw [hr2'] at hall
          simp at hall
    · rw [List.takeWhile_cons, if_neg (by simpa using hdot),
        List.dropWhile_cons (p := fun ch => decide (ch = '.')), if_neg (by simpa using hdot),
        List.dropWhile_cons (p := Char.isDigit), if_neg (by simp [hd])]
      refine iff_of_false ?_ ?_
      · rintro ⟨hnil, -⟩
        exact List.noConfusion hnil
      · intro hm
        simp [hdot] at hm

theorem layerScan_spec_iff (s : String) :
    ((∃ q, layerScan s = .ok (some q)) ↔ specLayerMarker (stripNlCr s) = true) ∧
    (layerScan s = .error .valueError ↔ multiDotMarker (stripNlCr s) = true) := by
  cases hdata : (stripNlCr s).data with
  | nil =>
    have hls : layerScan s = .ok none := by unfold layerScan; rw [hdata]
    have hsp : specLayerMarker (stripNlCr s) = false := by unfold specLayerMarker; rw [hdata]
    have hmd : multiDotMarker (stripNlCr s) = false := by unfold multiDotMarker; rw [hdata]
    rw [hls, hsp, hmd]
    constructor
    · refine iff_of_false ?_ (by simp)
      rintro ⟨q, hq⟩
      have hno : (none : Option ℚ) = some q := by injection hq
      exact Option.noConfusion hno
    · exact iff_of_false (by simp) (by simp)
  | cons c rest =>
    by_cases hc : c = ';'
    · subst hc
      have hls : layerScan s = layerScanCore rest := by
        rw [layerScan_cons s ';' rest hdata, if_pos rfl]
      have hsp : specLayerMarker (stripNlCr s) =
          (if 0 < (rest.takeWhile Char.isDigit).length then
            (match rest.dropWhile Char.isDigit with
             | [] => true
             | d :: r2 => decide (d = '.') && r2.all Char.isDigit)
           else false) := by
        unfold specLayerMarker
        rw [hdata]
        dsimp only
        rw [if_pos rfl]
      have hmd : multiDotMarker (stripNlCr s) =
          (decide (0 < (rest.takeWhile Char.isDigit).length) &&
           decide ((((rest.dropWhile Char.isDigit).dropWhile fun ch =>
             decide (ch = '.')).dropWhile Char.isDigit) = []) &&
           decide (2 ≤ ((rest.dropWhile Char.isDigit).takeWhile fun ch =>
             decide (ch = '.')).length)) := by
        unfold multiDotMarker
        rw [hdata]
        dsimp only
        rw [if_pos rfl]
      rw [hls, hsp, hmd]
      constructor
      · rw [layerScanCore_ok_iff]
        by_cases h1 : 0 < (rest.takeWhile Char.isDigit).length
        · rw [if_pos h1]
          have hpat := spec_pattern_iff rest
          constructor
          · rintro ⟨-, hb, hcc⟩
            exact hpat.mp ⟨hb, hcc⟩
          · intro hm
            obtain ⟨hb, hcc⟩ := hpat.mpr hm
            exact ⟨h1, hb, hcc⟩
        · rw [if_neg h1]
          refine iff_of_false ?_ (by simp)
          rintro ⟨ha, -⟩
          exact h1 ha
      · rw [layerScanCore_err_iff]
        constructor
        · rintro ⟨ha, hb, hcc⟩
          simp [ha, hb, hcc]
        · intro hm
          simp only [Bool.and_eq_true, decide_eq_true_eq] at hm
          exact ⟨hm.1.1, hm.1.2, hm.2⟩
    · have hls : layerScan s = .ok none := by
        rw [layerScan_cons s c rest hdata, if_neg hc]
      have hsp : specLayerMarker (stripNlCr s) = false := by
        unfold specLayerMarker
        rw [hdata]
        dsimp only
        rw [if_neg hc]
      have hmd : multiDotMarker (stripNlCr s) = false := by
        unfold multiDotMarker
        rw [hdata]
        dsimp only
        rw [if_neg hc]
      rw [hls, hsp, hmd]
      constructor
      · refine iff_of_false ?_ (by simp)
        rintro ⟨q, hq⟩
        have hno : (none : Option ℚ) = some q := by injection hq
        exact Option.noConfusion hno
      · exact iff_of_false (by simp) (by simp)

/-- C5 counterexample: the line `;3` matches the claimed single-decimal-point
pattern, yet on the file `[";1..2\n", ";3\n"]` layer detection records
nothing at all: the first line matches the code's regex — whose `\.*` allows
any number of dots, unlike the claimed pattern — and the `float` conversion
then raises ValueError, aborting the whole scan. -/
theorem c5_counterexample :
    specLayerMarker (stripNlCr ";3\n") = true ∧
    specLayerMarker (stripNlCr ";1..2\n") = false ∧
    find_layers [";1..2\n", ";3\n"] = .error .valueError :=
  ⟨by decide, by decide, by decide⟩

/-- C5 (amended): after stripping newline and carriage-return characters, a
line is recorded as a layer marker (the scan yields a height for it) iff it
matches the spec's pattern — semicolon, one or more digits, optionally a
single decimal point and zero or more digits, nothing else — while a line
matched by the code's regex with two or more decimal points (semicolon,
digits, two or more dots, digits) makes the scan raise ValueError instead of
recording anything; every recorded entry maps its parsed height to the
number of a line that scans to that height, and recorded heights are unique
(a repeated height overwrites the prior entry). -/
theorem c5_layer_marker (s : String) :
    ((∃ q, layerScan s = .ok (some q)) ↔ specLayerMarker (stripNlCr s) = true) ∧
    (layerScan s = .error .valueError ↔ multiDotMarker (stripNlCr s) = true) ∧
    (∀ lines r, find_layers lines = .ok r → ∀ e ∈ r,
      e.2 < lines.length ∧ layerScan (lines.getD e.2 "") = .ok (some e.1)) ∧
    (∀ lines r, find_layers lines = .ok r → (r.map Prod.fst).Nodup) :=
  ⟨(layerScan_spec_iff s).1, (layerScan_spec_iff s).2,
    fun lines r hr e he => find_layers_scan_at lines r hr e he,
    fun lines r hr => find_layers_nodup lines r hr⟩

/-- Witness for the amended C5: `;12.5` is recognized per the spec pattern,
and on the file `[";3\n"]` the recorded entry points at a line scanning to
height 3. -/
theorem c5_layer_marker_witness :
    specLayerMarker (stripNlCr ";12.5\n") = true ∧
    ((0 : ℕ) < [";3\n"].length ∧ layerScan ([";3\n"].getD 0 "") = .ok (some 3)) := by
  constructor
  · exact (c5_layer_marker ";12.5\n").1.mp ⟨mkRat 125 10, by decide⟩
  · exact (c5_layer_marker ";12.5\n").2.2.1 [";3\n"] [(3, 0)] (by decide) (3, 0) (by decide)

end GCodePause
